import Mathlib

/-!
# Verification of the gitnotify change-detection and event-dispatch core

Shallow embedding of `src/gitlab/events.py`, `src/gitlab/api.py` and
`src/gitlab/http_client.py`.

Python dictionaries (`dict[int, ...]`) are modelled as association lists with
insertion-order-preserving update (`dictGet` / `dictSet`).  The nested merge
request state `dict[int, dict[int, str]]` is modelled by `MRState` with
`mrGet` / `mrSet` mirroring `previous_mr.get(pid, {}).get(mr_id)` and
`previous_mr.setdefault(pid, {})[mr_id] = state`.

One iteration of a poll loop's `while True:` body (a *tick*) is a pure
function of the fetched data for that tick.  Network results are passed in
explicitly: `none` stands for a failed (or falsy) fetch.  The consumer
callback is modelled as a function returning `Option String`: `none` means it
completed normally, `some msg` means it raised exception `msg`.  An uncaught
Python exception is modelled by the `raised` field of a step result: when it
is `some`, execution of the loop body stopped at that point and the exception
propagated out of the poll coroutine (the loops contain no try/except).
-/

set_option autoImplicit false

namespace GitNotify

/-! ## Data model (src/gitlab/api.py) -/

/-- `Project` TypedDict: fields actually read by the loops. -/
structure Project where
  id : Int
  name : String
deriving DecidableEq, Repr

/-- `Pipeline` TypedDict: `{id: int, status: str}`. -/
structure Pipeline where
  id : Int
  status : String
deriving DecidableEq, Repr

/-- `PushData` TypedDict: `{ref: str, commit_count: int, author_username: str}`. -/
structure PushData where
  ref : String
  commit_count : Int
  author_username : String
deriving DecidableEq, Repr

/-- `RawEvent` TypedDict (`total=False`).  The `push_data` item of the JSON
dict is modelled three-valued: `none` = the key is absent from the dict,
`some none` = the key is present with value `null` (falsy), and
`some (some d)` = the key is present with a (non-empty, hence truthy)
push-data object. -/
structure RawEvent where
  id : Int
  push_data : Option (Option PushData)
  author_username : String
deriving DecidableEq, Repr

/-- `MergeRequest` TypedDict (`total=False`).  `id`, `state` and
`author.username` are accessed by subscript (required here); `title` and
`iid` are read with `.get` and defaults, hence optional. -/
structure MergeRequest where
  id : Int
  title : Option String
  state : String
  iid : Option Int
  author_username : String
deriving DecidableEq, Repr

/-! ## Event records (src/gitlab/events.py) -/

/-- `PipelineEvent` TypedDict as constructed at events.py lines 100-107. -/
structure PipelineEvent where
  type : String
  project_id : Int
  project_name : String
  pipeline_id : Int
  status : String
  timestamp : String
deriving DecidableEq, Repr

/-- `PushEvent` TypedDict as constructed at events.py lines 161-170. -/
structure PushEvent where
  type : String
  project_id : Int
  project_name : String
  event_id : Int
  branch : String
  commit_count : Int
  timestamp : String
  author : String
deriving DecidableEq, Repr

/-- `MergeRequestEvent` TypedDict as constructed at events.py lines 214-224. -/
structure MergeRequestEvent where
  type : String
  project_id : Int
  project_name : String
  mr_id : Int
  state : String
  title : String
  timestamp : String
  author : String
  iid : Int
deriving DecidableEq, Repr

/-! ## Python dict model -/

/-- `d.get(key)`: lookup in an insertion-ordered dict. -/
def dictGet {α : Type} : List (Int × α) → Int → Option α
  | [], _ => none
  | (k, v) :: rest, key => if key = k then some v else dictGet rest key

/-- `d[key] = val`: update in place if the key exists, else append. -/
def dictSet {α : Type} : List (Int × α) → Int → α → List (Int × α)
  | [], key, val => [(key, val)]
  | (k, v) :: rest, key, val =>
    if key = k then (k, val) :: rest else (k, v) :: dictSet rest key val

/-! ## Fetcher (src/gitlab/http_client.py) -/

/-- Outcome of one `session.get` as the source observes it: either a response
with a status code and a (parsed) JSON body, or an `aiohttp.ClientError`
raised by the transport. -/
inductive HttpOutcome (α : Type) where
  | response (status : Nat) (body : α)
  | clientError (message : String)
deriving DecidableEq, Repr

/-- `get_json` (http_client.py lines 15-42): return the parsed body on
HTTP 200; on any other status or on a transport error, log and return
`None`.  Total: it never propagates a failure to the caller. -/
def get_json {α : Type} : HttpOutcome α → Option α
  | .response status body => if status = 200 then some body else none
  | .clientError _ => none

/-! ## Poll-loop bodies (src/gitlab/events.py)

Each loop's per-project body becomes a `process…Project` function; the
`for project in projects` loop becomes `pollProjects`; one `while True:`
iteration becomes `poll…Tick` (which also performs the `first_run = False`
assignment at the end of the body, reached only when the project list was
truthy and no exception escaped). -/

/-- Result of running part of a tick: the detector state, the events the
callback was invoked with (in order), and `some msg` when an exception
`msg` escaped (terminating the poll coroutine). -/
structure StepResult (σ ε : Type) where
  state : σ
  events : List ε
  raised : Option String
deriving DecidableEq, Repr

/-- Result of one full `while True:` iteration, including the value of the
`first_run` flag afterwards. -/
structure TickResult (σ ε : Type) where
  first_run : Bool
  state : σ
  events : List ε
  raised : Option String
deriving DecidableEq, Repr

/-- The consumer callback: `none` = completed normally, `some msg` = raised. -/
abbrev Callback (ε : Type) := ε → Option String

/-- `for project in projects:` — process each project in list order; an
exception escaping one project's body aborts the remaining iterations. -/
def pollProjects {σ ε ρ : Type} (process : σ → Project → ρ → StepResult σ ε) :
    σ → List (Project × ρ) → StepResult σ ε
  | state, [] => ⟨state, [], none⟩
  | state, (project, fetched) :: rest =>
    let r := process state project fetched
    match r.raised with
    | some msg => ⟨r.state, r.events, some msg⟩
    | none =>
      let r' := pollProjects process r.state rest
      ⟨r'.state, r.events ++ r'.events, r'.raised⟩

/-- One `while True:` iteration: fetch the project list (`none` = failed,
and `if not projects: continue` also skips an empty list), process each
project, then set `first_run = False` — an assignment reached only when the
body ran to completion. -/
def pollTick {σ ε ρ : Type} (process : σ → Project → ρ → StepResult σ ε)
    (first_run : Bool) (state : σ)
    (projects : Option (List (Project × ρ))) : TickResult σ ε :=
  match projects with
  | none => ⟨first_run, state, [], none⟩
  | some [] => ⟨first_run, state, [], none⟩
  | some ps =>
    let r := pollProjects process state ps
    match r.raised with
    | some msg => ⟨first_run, r.state, r.events, some msg⟩
    | none => ⟨false, r.state, r.events, none⟩

/-! ### Pipeline loop (`poll_pipeline_events`, events.py lines 57-109) -/

/-- Detector state of the pipeline loop: `previous_status: dict[int, Pipeline]`. -/
abbrev PipeState := List (Int × Pipeline)

/-- The event dict built at events.py lines 100-107. -/
def mkPipelineEvent (project : Project) (pipeline : Pipeline) (now : String) :
    PipelineEvent :=
  ⟨"pipeline", project.id, project.name, pipeline.id, pipeline.status, now⟩

/-- Body of the `for project in projects:` loop, events.py lines 79-108. -/
def processPipelineProject (callback : Callback PipelineEvent)
    (first_run : Bool) (now : String) (state : PipeState) (project : Project)
    (fetched : Option Pipeline) : StepResult PipeState PipelineEvent :=
  match fetched with
  | none => ⟨state, [], none⟩
  | some pipeline =>
    match dictGet state project.id with
    | none => ⟨dictSet state project.id ⟨pipeline.id, pipeline.status⟩, [], none⟩
    | some prev =>
      if prev.id ≠ pipeline.id ∨ prev.status ≠ pipeline.status then
        let state' := dictSet state project.id ⟨pipeline.id, pipeline.status⟩
        if first_run then ⟨state', [], none⟩
        else
          let event := mkPipelineEvent project pipeline now
          ⟨state', [event], callback event⟩
      else ⟨state, [], none⟩

/-- One tick of `poll_pipeline_events`. -/
def pollPipelineTick (callback : Callback PipelineEvent) (now : String)
    (first_run : Bool) (state : PipeState)
    (projects : Option (List (Project × Option Pipeline))) :
    TickResult PipeState PipelineEvent :=
  pollTick (processPipelineProject callback first_run now) first_run state projects

/-! ### Push loop (`poll_push_events`, events.py lines 112-172) -/

/-- Detector state of the push loop: `previous_push: dict[int, int]`. -/
abbrev PushState := List (Int × Int)

/-- `[event for event in events_list if event['push_data']]`, events.py
line 145.  The subscript raises `KeyError` when the `push_data` key is
absent; a present-but-`null` value is falsy and the entry is skipped. -/
def filterPushEvents : List RawEvent → Except String (List RawEvent)
  | [] => .ok []
  | e :: rest =>
    match e.push_data with
    | none => .error "KeyError: push_data"
    | some none => filterPushEvents rest
    | some (some _) =>
      match filterPushEvents rest with
      | .error msg => .error msg
      | .ok kept => .ok (e :: kept)

/-- The event dict built at events.py lines 161-170. -/
def mkPushEvent (project : Project) (latest_push : RawEvent)
    (push_data : PushData) (now : String) : PushEvent :=
  ⟨"push", project.id, project.name, latest_push.id, push_data.ref,
    push_data.commit_count, now, latest_push.author_username⟩

/-- Body of the `for project in projects:` loop, events.py lines 134-171. -/
def processPushProject (callback : Callback PushEvent)
    (first_run : Bool) (now : String) (state : PushState) (project : Project)
    (fetched : Option (List RawEvent)) : StepResult PushState PushEvent :=
  match fetched with
  | none => ⟨state, [], none⟩
  | some [] => ⟨state, [], none⟩
  | some events_list =>
    match filterPushEvents events_list with
    | .error msg => ⟨state, [], some msg⟩
    | .ok [] => ⟨state, [], none⟩
    | .ok (latest_push :: _) =>
      let event_id := latest_push.id
      match dictGet state project.id with
      | none => ⟨dictSet state project.id event_id, [], none⟩
      | some prev_id =>
        if event_id ≠ prev_id then
          let state' := dictSet state project.id event_id
          match latest_push.push_data with
          | some (some push_data) =>
            if first_run then ⟨state', [], none⟩
            else
              let event := mkPushEvent project latest_push push_data now
              ⟨state', [event], callback event⟩
          | some none => ⟨state', [], some "TypeError: push_data"⟩
          | none => ⟨state', [], some "KeyError: push_data"⟩
        else ⟨state, [], none⟩

/-- One tick of `poll_push_events`. -/
def pollPushTick (callback : Callback PushEvent) (now : String)
    (first_run : Bool) (state : PushState)
    (projects : Option (List (Project × Option (List RawEvent)))) :
    TickResult PushState PushEvent :=
  pollTick (processPushProject callback first_run now) first_run state projects

/-! ### Merge-request loop (`poll_mr_events`, events.py lines 175-226) -/

/-- Detector state of the MR loop: `previous_mr: dict[int, dict[int, str]]`. -/
abbrev MRState := List (Int × List (Int × String))

/-- `previous_mr.get(project_id, {}).get(mr_id)`, events.py line 207. -/
def mrGet (state : MRState) (project_id mr_id : Int) : Option String :=
  match dictGet state project_id with
  | none => none
  | some inner => dictGet inner mr_id

/-- `previous_mr.setdefault(project_id, {})[mr_id] = value`, lines 209/212. -/
def mrSet (state : MRState) (project_id mr_id : Int) (value : String) : MRState :=
  match dictGet state project_id with
  | none => dictSet state project_id [(mr_id, value)]
  | some inner => dictSet state project_id (dictSet inner mr_id value)

/-- The event dict built at events.py lines 214-224 (note the `.get`
defaults for `title` and `iid`). -/
def mkMREvent (project : Project) (latest_mr : MergeRequest) (now : String) :
    MergeRequestEvent :=
  ⟨"merge_request", project.id, project.name, latest_mr.id, latest_mr.state,
    latest_mr.title.getD "", now, latest_mr.author_username,
    latest_mr.iid.getD 0⟩

/-- Body of the `for project in projects:` loop, events.py lines 197-225. -/
def processMRProject (callback : Callback MergeRequestEvent)
    (first_run : Bool) (now : String) (state : MRState) (project : Project)
    (fetched : Option (List MergeRequest)) : StepResult MRState MergeRequestEvent :=
  match fetched with
  | none => ⟨state, [], none⟩
  | some [] => ⟨state, [], none⟩
  | some (latest_mr :: _) =>
    let mr_id := latest_mr.id
    let current_state := latest_mr.state
    match mrGet state project.id mr_id with
    | none => ⟨mrSet state project.id mr_id current_state, [], none⟩
    | some prev_state =>
      if prev_state ≠ current_state then
        let state' := mrSet state project.id mr_id current_state
        if first_run then ⟨state', [], none⟩
        else
          let event := mkMREvent project latest_mr now
          ⟨state', [event], callback event⟩
      else ⟨state, [], none⟩

/-- One tick of `poll_mr_events`. -/
def pollMRTick (callback : Callback MergeRequestEvent) (now : String)
    (first_run : Bool) (state : MRState)
    (projects : Option (List (Project × Option (List MergeRequest)))) :
    TickResult MRState MergeRequestEvent :=
  pollTick (processMRProject callback first_run now) first_run state projects

/-! ### Multi-tick runs

A run is a sequence of ticks; the input of each tick is its timestamp and
the fetch results the network produced for it.  The `first_run` flag and
the detector state thread through; an escaped exception ends the run (the
coroutine is dead). -/

/-- Run a poll loop over a list of tick inputs. -/
def pollRun {σ ε ρ : Type}
    (process : String → Bool → σ → Project → ρ → StepResult σ ε) :
    Bool → σ → List (String × Option (List (Project × ρ))) → TickResult σ ε
  | first_run, state, [] => ⟨first_run, state, [], none⟩
  | first_run, state, (now, input) :: rest =>
    let r := pollTick (process now first_run) first_run state input
    match r.raised with
    | some msg => ⟨r.first_run, r.state, r.events, some msg⟩
    | none =>
      let r' := pollRun process r.first_run r.state rest
      ⟨r'.first_run, r'.state, r.events ++ r'.events, r'.raised⟩

/-- `poll_pipeline_events` run over a list of tick inputs, starting (as in
the source) with empty state and `first_run = True`. -/
def pollPipelineRun (callback : Callback PipelineEvent)
    (first_run : Bool) (state : PipeState)
    (ticks : List (String × Option (List (Project × Option Pipeline)))) :
    TickResult PipeState PipelineEvent :=
  pollRun (fun now fr => processPipelineProject callback fr now) first_run state ticks

/-- `poll_push_events` run over a list of tick inputs. -/
def pollPushRun (callback : Callback PushEvent)
    (first_run : Bool) (state : PushState)
    (ticks : List (String × Option (List (Project × Option (List RawEvent))))) :
    TickResult PushState PushEvent :=
  pollRun (fun now fr => processPushProject callback fr now) first_run state ticks

/-- `poll_mr_events` run over a list of tick inputs. -/
def pollMRRun (callback : Callback MergeRequestEvent)
    (first_run : Bool) (state : MRState)
    (ticks : List (String × Option (List (Project × Option (List MergeRequest))))) :
    TickResult MRState MergeRequestEvent :=
  pollRun (fun now fr => processMRProject callback fr now) first_run state ticks

/-! ## Dictionary lemmas -/

theorem dictGet_dictSet {α : Type} (s : List (Int × α)) (key k : Int) (v : α) :
    dictGet (dictSet s k v) key = if key = k then some v else dictGet s key := by
  induction s with
  | nil => simp [dictGet, dictSet]
  | cons hd tl ih =>
    obtain ⟨a, b⟩ := hd
    by_cases hk : k = a
    · subst hk
      by_cases hkey : key = k <;> simp [dictGet, dictSet, hkey]
    · by_cases hkey : key = a
      · subst hkey
        have : ¬ key = k := fun h => hk h.symm
        simp [dictGet, dictSet, hk, this]
      · simp [dictGet, dictSet, hk, hkey, ih]

theorem mrGet_mrSet (s : MRState) (pid mrid pid' mrid' : Int) (v : String) :
    mrGet (mrSet s pid mrid v) pid' mrid' =
      if pid' = pid ∧ mrid' = mrid then some v else mrGet s pid' mrid' := by
  unfold mrGet mrSet
  rcases h : dictGet s pid with _ | inner
  · rw [dictGet_dictSet]
    by_cases hp : pid' = pid
    · subst hp
      by_cases hm : mrid' = mrid <;> simp [dictGet, hm, h]
    · simp [hp]
  · rw [dictGet_dictSet]
    by_cases hp : pid' = pid
    · subst hp
      simp [h]
      rw [dictGet_dictSet]
    · simp [hp]

/-! ## Step lemmas: how one project's body can change the state -/

theorem processPipelineProject_unseen (cb : Callback PipelineEvent)
    (fr : Bool) (now : String) (st : PipeState) (p : Project) (pl : Pipeline)
    (h : dictGet st p.id = none) :
    processPipelineProject cb fr now st p (some pl) =
      ⟨dictSet st p.id ⟨pl.id, pl.status⟩, [], none⟩ := by
  simp [processPipelineProject, h]

theorem processPipelineProject_unchanged (cb : Callback PipelineEvent)
    (fr : Bool) (now : String) (st : PipeState) (p : Project)
    (pl prev : Pipeline) (h : dictGet st p.id = some prev)
    (hid : prev.id = pl.id) (hst : prev.status = pl.status) :
    processPipelineProject cb fr now st p (some pl) = ⟨st, [], none⟩ := by
  simp [processPipelineProject, h, hid, hst]

theorem processPipelineProject_changed (cb : Callback PipelineEvent)
    (now : String) (st : PipeState) (p : Project) (pl prev : Pipeline)
    (h : dictGet st p.id = some prev)
    (hne : prev.id ≠ pl.id ∨ prev.status ≠ pl.status) :
    processPipelineProject cb false now st p (some pl) =
      ⟨dictSet st p.id ⟨pl.id, pl.status⟩, [mkPipelineEvent p pl now],
        cb (mkPipelineEvent p pl now)⟩ := by
  unfold processPipelineProject
  simp only [h, if_pos hne]
  rfl

theorem processPipelineProject_changed_warm (cb : Callback PipelineEvent)
    (now : String) (st : PipeState) (p : Project) (pl prev : Pipeline)
    (h : dictGet st p.id = some prev)
    (hne : prev.id ≠ pl.id ∨ prev.status ≠ pl.status) :
    processPipelineProject cb true now st p (some pl) =
      ⟨dictSet st p.id ⟨pl.id, pl.status⟩, [], none⟩ := by
  unfold processPipelineProject
  simp only [h, if_pos hne]
  rfl

theorem processPipelineProject_state_cases (cb : Callback PipelineEvent)
    (fr : Bool) (now : String) (st : PipeState) (p : Project)
    (f : Option Pipeline) :
    (processPipelineProject cb fr now st p f).state = st ∨
    ∃ v, (processPipelineProject cb fr now st p f).state = dictSet st p.id v := by
  rcases f with _ | pl
  · left; rfl
  · unfold processPipelineProject
    rcases h : dictGet st p.id with _ | prev
    · simp only [h]
      exact Or.inr ⟨_, rfl⟩
    · simp only [h]
      split
      · cases fr
        · exact Or.inr ⟨_, rfl⟩
        · exact Or.inr ⟨_, rfl⟩
      · left; rfl

theorem processPipelineProject_events_warm (cb : Callback PipelineEvent)
    (now : String) (st : PipeState) (p : Project) (f : Option Pipeline) :
    (processPipelineProject cb true now st p f).events = [] ∧
    (processPipelineProject cb true now st p f).raised = none := by
  rcases f with _ | pl
  · exact ⟨rfl, rfl⟩
  · unfold processPipelineProject
    rcases h : dictGet st p.id with _ | prev
    · simp [h]
    · simp only [h]
      split <;> simp

theorem filterPushEvents_ok_head (feed kept : List RawEvent) (e : RawEvent)
    (h : filterPushEvents feed = .ok (e :: kept)) :
    ∃ pd, e.push_data = some (some pd) := by
  induction feed generalizing kept with
  | nil => simp [filterPushEvents] at h
  | cons hd tl ih =>
    unfold filterPushEvents at h
    rcases hpd : hd.push_data with _ | pdo
    · simp [hpd] at h
    · rcases pdo with _ | pd
      · rw [hpd] at h
        exact ih _ h
      · rw [hpd] at h
        rcases hrest : filterPushEvents tl with msg | kept'
        · rw [hrest] at h
          simp at h
        · rw [hrest] at h
          simp at h
          obtain ⟨rfl, _⟩ := h
          exact ⟨pd, hpd⟩

theorem processPushProject_unseen (cb : Callback PushEvent)
    (fr : Bool) (now : String) (st : PushState) (p : Project)
    (feed kept : List RawEvent) (e : RawEvent)
    (hfilter : filterPushEvents feed = .ok (e :: kept))
    (h : dictGet st p.id = none) :
    processPushProject cb fr now st p (some feed) =
      ⟨dictSet st p.id e.id, [], none⟩ := by
  rcases feed with _ | ⟨hd, tl⟩
  · simp [filterPushEvents] at hfilter
  · unfold processPushProject
    simp only [hfilter, h]

theorem processPushProject_unchanged (cb : Callback PushEvent)
    (fr : Bool) (now : String) (st : PushState) (p : Project)
    (feed kept : List RawEvent) (e : RawEvent) (prev_id : Int)
    (hfilter : filterPushEvents feed = .ok (e :: kept))
    (h : dictGet st p.id = some prev_id) (hid : e.id = prev_id) :
    processPushProject cb fr now st p (some feed) = ⟨st, [], none⟩ := by
  rcases feed with _ | ⟨hd, tl⟩
  · simp [filterPushEvents] at hfilter
  · unfold processPushProject
    simp [hfilter, h, hid]

theorem processPushProject_changed (cb : Callback PushEvent)
    (now : String) (st : PushState) (p : Project)
    (feed kept : List RawEvent) (e : RawEvent) (pd : PushData) (prev_id : Int)
    (hfilter : filterPushEvents feed = .ok (e :: kept))
    (h : dictGet st p.id = some prev_id) (hid : e.id ≠ prev_id)
    (hpd : e.push_data = some (some pd)) :
    processPushProject cb false now st p (some feed) =
      ⟨dictSet st p.id e.id, [mkPushEvent p e pd now],
        cb (mkPushEvent p e pd now)⟩ := by
  rcases feed with _ | ⟨hd, tl⟩
  · simp [filterPushEvents] at hfilter
  · unfold processPushProject
    simp [hfilter, h, hid, hpd]

theorem processPushProject_changed_warm (cb : Callback PushEvent)
    (now : String) (st : PushState) (p : Project)
    (feed kept : List RawEvent) (e : RawEvent) (pd : PushData) (prev_id : Int)
    (hfilter : filterPushEvents feed = .ok (e :: kept))
    (h : dictGet st p.id = some prev_id) (hid : e.id ≠ prev_id)
    (hpd : e.push_data = some (some pd)) :
    processPushProject cb true now st p (some feed) =
      ⟨dictSet st p.id e.id, [], none⟩ := by
  rcases feed with _ | ⟨hd, tl⟩
  · simp [filterPushEvents] at hfilter
  · unfold processPushProject
    simp [hfilter, h, hid, hpd]

theorem processPushProject_keyerror (cb : Callback PushEvent)
    (fr : Bool) (now : String) (st : PushState) (p : Project)
    (feed : List RawEvent) (msg : String)
    (hfilter : filterPushEvents feed = .error msg) :
    processPushProject cb fr now st p (some feed) = ⟨st, [], some msg⟩ := by
  rcases feed with _ | ⟨hd, tl⟩
  · simp [filterPushEvents] at hfilter
  · unfold processPushProject
    simp only [hfilter]

theorem processPushProject_state_cases (cb : Callback PushEvent)
    (fr : Bool) (now : String) (st : PushState) (p : Project)
    (f : Option (List RawEvent)) :
    (processPushProject cb fr now st p f).state = st ∨
    ∃ v, (processPushProject cb fr now st p f).state = dictSet st p.id v := by
  rcases f with _ | feed
  · left; rfl
  · rcases feed with _ | ⟨hd, tl⟩
    · left; rfl
    · unfold processPushProject
      rcases hfilter : filterPushEvents (hd :: tl) with msg | kept
      · simp [hfilter]
      · rcases kept with _ | ⟨e, kept'⟩
        · simp [hfilter]
        · simp only [hfilter]
          rcases h : dictGet st p.id with _ | prev_id
          · exact Or.inr ⟨_, rfl⟩
          · dsimp only
            split
            · rcases hpd : e.push_data with _ | pdo
              · exact Or.inr ⟨_, rfl⟩
              · rcases pdo with _ | pd
                · exact Or.inr ⟨_, rfl⟩
                · cases fr
                  · exact Or.inr ⟨_, rfl⟩
                  · exact Or.inr ⟨_, rfl⟩
            · left; rfl

theorem processPushProject_events_warm (cb : Callback PushEvent)
    (now : String) (st : PushState) (p : Project) (f : Option (List RawEvent)) :
    (processPushProject cb true now st p f).events = [] := by
  rcases f with _ | feed
  · rfl
  · rcases feed with _ | ⟨hd, tl⟩
    · rfl
    · unfold processPushProject
      rcases hfilter : filterPushEvents (hd :: tl) with msg | kept
      · simp only [hfilter]
      · rcases kept with _ | ⟨e, kept'⟩
        · simp only [hfilter]
        · simp only [hfilter]
          rcases h : dictGet st p.id with _ | prev_id
          · rfl
          · dsimp only
            split
            · rcases hpd : e.push_data with _ | pdo
              · rfl
              · rcases pdo with _ | pd <;> simp
            · rfl

theorem processMRProject_unseen (cb : Callback MergeRequestEvent)
    (fr : Bool) (now : String) (st : MRState) (p : Project)
    (mr : MergeRequest) (rest : List MergeRequest)
    (h : mrGet st p.id mr.id = none) :
    processMRProject cb fr now st p (some (mr :: rest)) =
      ⟨mrSet st p.id mr.id mr.state, [], none⟩ := by
  unfold processMRProject
  simp only [h]

theorem processMRProject_unchanged (cb : Callback MergeRequestEvent)
    (fr : Bool) (now : String) (st : MRState) (p : Project)
    (mr : MergeRequest) (rest : List MergeRequest) (prev : String)
    (h : mrGet st p.id mr.id = some prev) (hst : prev = mr.state) :
    processMRProject cb fr now st p (some (mr :: rest)) = ⟨st, [], none⟩ := by
  unfold processMRProject
  simp [h, hst]

theorem processMRProject_changed (cb : Callback MergeRequestEvent)
    (now : String) (st : MRState) (p : Project)
    (mr : MergeRequest) (rest : List MergeRequest) (prev : String)
    (h : mrGet st p.id mr.id = some prev) (hst : prev ≠ mr.state) :
    processMRProject cb false now st p (some (mr :: rest)) =
      ⟨mrSet st p.id mr.id mr.state, [mkMREvent p mr now],
        cb (mkMREvent p mr now)⟩ := by
  unfold processMRProject
  simp [h, hst]

theorem processMRProject_changed_warm (cb : Callback MergeRequestEvent)
    (now : String) (st : MRState) (p : Project)
    (mr : MergeRequest) (rest : List MergeRequest) (prev : String)
    (h : mrGet st p.id mr.id = some prev) (hst : prev ≠ mr.state) :
    processMRProject cb true now st p (some (mr :: rest)) =
      ⟨mrSet st p.id mr.id mr.state, [], none⟩ := by
  unfold processMRProject
  simp [h, hst]

theorem processMRProject_state_cases (cb : Callback MergeRequestEvent)
    (fr : Bool) (now : String) (st : MRState) (p : Project)
    (f : Option (List MergeRequest)) :
    (processMRProject cb fr now st p f).state = st ∨
    ∃ mrid v, (processMRProject cb fr now st p f).state = mrSet st p.id mrid v := by
  rcases f with _ | feed
  · left; rfl
  · rcases feed with _ | ⟨mr, rest⟩
    · left; rfl
    · unfold processMRProject
      dsimp only
      rcases h : mrGet st p.id mr.id with _ | prev
      · exact Or.inr ⟨_, _, rfl⟩
      · dsimp only
        by_cases hst : prev = mr.state
        · rw [if_neg (by simp [hst])]
          left; rfl
        · rw [if_pos hst]
          cases fr
          · exact Or.inr ⟨_, _, rfl⟩
          · exact Or.inr ⟨_, _, rfl⟩

theorem processMRProject_events_warm (cb : Callback MergeRequestEvent)
    (now : String) (st : MRState) (p : Project) (f : Option (List MergeRequest)) :
    (processMRProject cb true now st p f).events = [] ∧
    (processMRProject cb true now st p f).raised = none := by
  rcases f with _ | feed
  · exact ⟨rfl, rfl⟩
  · rcases feed with _ | ⟨mr, rest⟩
    · exact ⟨rfl, rfl⟩
    · unfold processMRProject
      dsimp only
      rcases h : mrGet st p.id mr.id with _ | prev
      · simp
      · dsimp only
        by_cases hst : prev = mr.state <;> simp [hst]

/-! ## Fold lemmas over `pollProjects`, `pollTick` and `pollRun` -/

theorem pollProjects_events_nil {σ ε ρ : Type}
    (process : σ → Project → ρ → StepResult σ ε)
    (hev : ∀ st p f, (process st p f).events = []) :
    ∀ (l : List (Project × ρ)) (st : σ), (pollProjects process st l).events = [] := by
  intro l
  induction l with
  | nil => intro st; rfl
  | cons hd tl ih =>
    intro st
    obtain ⟨p, f⟩ := hd
    unfold pollProjects
    dsimp only
    rcases hr : (process st p f).raised with _ | msg
    · simp [hev, ih]
    · simp [hev]

theorem pollProjects_preserves {σ ε ρ : Type} (Q : σ → Prop) (C : Project → Prop)
    (process : σ → Project → ρ → StepResult σ ε)
    (hstep : ∀ st p f, C p → Q st → Q (process st p f).state) :
    ∀ (l : List (Project × ρ)) (st : σ), (∀ pr ∈ l, C pr.1) → Q st →
      Q (pollProjects process st l).state := by
  intro l
  induction l with
  | nil => intro st _ hq; exact hq
  | cons hd tl ih =>
    intro st hc hq
    obtain ⟨p, f⟩ := hd
    have hq1 : Q (process st p f).state :=
      hstep st p f (hc (p, f) (List.mem_cons_self _ _)) hq
    unfold pollProjects
    dsimp only
    rcases hr : (process st p f).raised with _ | msg
    · exact ih _ (fun pr hpr => hc pr (List.mem_cons_of_mem _ hpr)) hq1
    · exact hq1

theorem pollTick_events_nil {σ ε ρ : Type}
    (process : σ → Project → ρ → StepResult σ ε)
    (hev : ∀ st p f, (process st p f).events = [])
    (fr : Bool) (st : σ) (input : Option (List (Project × ρ))) :
    (pollTick process fr st input).events = [] := by
  rcases input with _ | l
  · rfl
  · rcases l with _ | ⟨hd, tl⟩
    · rfl
    · unfold pollTick
      dsimp only
      rcases hr : (pollProjects process st (hd :: tl)).raised with _ | msg
      · exact pollProjects_events_nil process hev _ _
      · exact pollProjects_events_nil process hev _ _

theorem pollTick_preserves {σ ε ρ : Type} (Q : σ → Prop) (C : Project → Prop)
    (process : σ → Project → ρ → StepResult σ ε)
    (hstep : ∀ st p f, C p → Q st → Q (process st p f).state)
    (fr : Bool) (st : σ) (input : Option (List (Project × ρ)))
    (hc : ∀ l, input = some l → ∀ pr ∈ l, C pr.1) (hq : Q st) :
    Q (pollTick process fr st input).state := by
  rcases input with _ | l
  · exact hq
  · rcases l with _ | ⟨hd, tl⟩
    · exact hq
    · have h1 : Q (pollProjects process st (hd :: tl)).state :=
        pollProjects_preserves Q C process hstep _ _ (hc _ rfl) hq
      unfold pollTick
      dsimp only
      rcases hr : (pollProjects process st (hd :: tl)).raised with _ | msg
      · exact h1
      · exact h1

theorem pollRun_preserves {σ ε ρ : Type} (Q : σ → Prop) (C : Project → Prop)
    (process : String → Bool → σ → Project → ρ → StepResult σ ε)
    (hstep : ∀ now fr st p f, C p → Q st → Q (process now fr st p f).state) :
    ∀ (ticks : List (String × Option (List (Project × ρ)))) (fr : Bool) (st : σ),
      (∀ t ∈ ticks, ∀ l, t.2 = some l → ∀ pr ∈ l, C pr.1) → Q st →
      Q (pollRun process fr st ticks).state := by
  intro ticks
  induction ticks with
  | nil => intro fr st _ hq; exact hq
  | cons hd tl ih =>
    intro fr st hc hq
    obtain ⟨now, input⟩ := hd
    have h1 : Q (pollTick (process now fr) fr st input).state :=
      pollTick_preserves Q C (process now fr)
        (fun st' p f hcp hq' => hstep now fr st' p f hcp hq') fr st input
        (fun l hl => hc (now, input) (List.mem_cons_self _ _) l hl) hq
    unfold pollRun
    dsimp only
    rcases hr : (pollTick (process now fr) fr st input).raised with _ | msg
    · exact ih _ _ (fun t ht => hc t (List.mem_cons_of_mem _ ht)) h1
    · exact h1

/-! ## Frame and Known-preservation consequences of the step lemmas -/

theorem processPipelineProject_frame (cb : Callback PipelineEvent)
    (fr : Bool) (now : String) (st : PipeState) (p : Project)
    (f : Option Pipeline) (k : Int) (hk : k ≠ p.id) :
    dictGet (processPipelineProject cb fr now st p f).state k = dictGet st k := by
  rcases processPipelineProject_state_cases cb fr now st p f with hst | ⟨v, hst⟩
  · rw [hst]
  · rw [hst, dictGet_dictSet, if_neg hk]

theorem processPipelineProject_known (cb : Callback PipelineEvent)
    (fr : Bool) (now : String) (st : PipeState) (p : Project)
    (f : Option Pipeline) (k : Int) (h : (dictGet st k).isSome) :
    (dictGet (processPipelineProject cb fr now st p f).state k).isSome := by
  rcases processPipelineProject_state_cases cb fr now st p f with hst | ⟨v, hst⟩
  · rw [hst]; exact h
  · rw [hst, dictGet_dictSet]
    by_cases hk : k = p.id <;> simp [hk, h]

theorem processPushProject_frame (cb : Callback PushEvent)
    (fr : Bool) (now : String) (st : PushState) (p : Project)
    (f : Option (List RawEvent)) (k : Int) (hk : k ≠ p.id) :
    dictGet (processPushProject cb fr now st p f).state k = dictGet st k := by
  rcases processPushProject_state_cases cb fr now st p f with hst | ⟨v, hst⟩
  · rw [hst]
  · rw [hst, dictGet_dictSet, if_neg hk]

theorem processPushProject_events_unseen (cb : Callback PushEvent)
    (fr : Bool) (now : String) (st : PushState) (p : Project)
    (f : Option (List RawEvent)) (h : dictGet st p.id = none) :
    (processPushProject cb fr now st p f).events = [] := by
  rcases f with _ | feed
  · rfl
  · rcases feed with _ | ⟨hd, tl⟩
    · rfl
    · unfold processPushProject
      rcases hfilter : filterPushEvents (hd :: tl) with msg | kept
      · simp [hfilter]
      · rcases kept with _ | ⟨e, kept'⟩
        · simp [hfilter]
        · simp [hfilter, h]

theorem processPushProject_known (cb : Callback PushEvent)
    (fr : Bool) (now : String) (st : PushState) (p : Project)
    (f : Option (List RawEvent)) (k : Int) (h : (dictGet st k).isSome) :
    (dictGet (processPushProject cb fr now st p f).state k).isSome := by
  rcases processPushProject_state_cases cb fr now st p f with hst | ⟨v, hst⟩
  · rw [hst]; exact h
  · rw [hst, dictGet_dictSet]
    by_cases hk : k = p.id <;> simp [hk, h]

theorem processMRProject_frame_project (cb : Callback MergeRequestEvent)
    (fr : Bool) (now : String) (st : MRState) (p : Project)
    (f : Option (List MergeRequest)) (pid mrid : Int) (hk : pid ≠ p.id) :
    mrGet (processMRProject cb fr now st p f).state pid mrid = mrGet st pid mrid := by
  rcases processMRProject_state_cases cb fr now st p f with hst | ⟨mid, v, hst⟩
  · rw [hst]
  · rw [hst, mrGet_mrSet]
    simp [hk]

theorem processMRProject_known (cb : Callback MergeRequestEvent)
    (fr : Bool) (now : String) (st : MRState) (p : Project)
    (f : Option (List MergeRequest)) (pid mrid : Int)
    (h : (mrGet st pid mrid).isSome) :
    (mrGet (processMRProject cb fr now st p f).state pid mrid).isSome := by
  rcases processMRProject_state_cases cb fr now st p f with hst | ⟨mid, v, hst⟩
  · rw [hst]; exact h
  · rw [hst, mrGet_mrSet]
    by_cases hk : pid = p.id ∧ mrid = mid <;> simp [hk, h]

/-! ## First-sighting lemmas: a tick whose keys are all Unseen -/

theorem pollPipelineProjects_all_unseen (cb : Callback PipelineEvent)
    (fr : Bool) (now : String) :
    ∀ (l : List (Project × Option Pipeline)) (st : PipeState),
      (∀ pr ∈ l, dictGet st pr.1.id = none) →
      (l.map fun pr => pr.1.id).Nodup →
      (pollProjects (processPipelineProject cb fr now) st l).events = [] ∧
      (pollProjects (processPipelineProject cb fr now) st l).raised = none ∧
      (∀ pr ∈ l, ∀ pl, pr.2 = some pl →
        dictGet (pollProjects (processPipelineProject cb fr now) st l).state pr.1.id =
          some ⟨pl.id, pl.status⟩) := by
  intro l
  induction l with
  | nil =>
    intro st _ _
    refine ⟨rfl, rfl, ?_⟩
    intro pr hpr
    cases hpr
  | cons hd tl ih =>
    intro st hunseen hnodup
    obtain ⟨p, f⟩ := hd
    have hpid : dictGet st p.id = none := hunseen (p, f) (List.mem_cons_self _ _)
    have hnodup' : (p.id :: tl.map fun pr => pr.1.id).Nodup := by simpa using hnodup
    have hnotmem : p.id ∉ tl.map (fun pr => pr.1.id) := (List.nodup_cons.mp hnodup').1
    have htlnodup : (tl.map fun pr => pr.1.id).Nodup := (List.nodup_cons.mp hnodup').2
    have htlne : ∀ pr ∈ tl, pr.1.id ≠ p.id := by
      intro pr hpr h
      exact hnotmem (h ▸ List.mem_map_of_mem _ hpr)
    rcases f with _ | pl0
    · have htl := ih st (fun pr hpr => hunseen pr (List.mem_cons_of_mem _ hpr)) htlnodup
      unfold pollProjects
      dsimp only
      refine ⟨htl.1, htl.2.1, ?_⟩
      intro pr hpr pl hpl
      rcases List.mem_cons.mp hpr with rfl | hpr'
      · cases hpl
      · exact htl.2.2 pr hpr' pl hpl
    · have hstep := processPipelineProject_unseen cb fr now st p pl0 hpid
      have hunseen1 : ∀ pr ∈ tl,
          dictGet (dictSet st p.id ⟨pl0.id, pl0.status⟩) pr.1.id = none := by
        intro pr hpr
        rw [dictGet_dictSet, if_neg (htlne pr hpr)]
        exact hunseen pr (List.mem_cons_of_mem _ hpr)
      have htl := ih _ hunseen1 htlnodup
      unfold pollProjects
      dsimp only
      rw [hstep]
      dsimp only
      refine ⟨htl.1, htl.2.1, ?_⟩
      intro pr hpr pl hpl
      rcases List.mem_cons.mp hpr with rfl | hpr'
      · injection hpl with hple
        subst hple
        dsimp only
        refine pollProjects_preserves
          (fun s : PipeState => dictGet s p.id = some (Pipeline.mk pl0.id pl0.status))
          (fun q => q.id ≠ p.id) _ ?_ tl _ htlne ?_
        · intro st' p' f' hcp hq
          rw [processPipelineProject_frame cb fr now st' p' f' p.id (Ne.symm hcp)]
          exact hq
        · simp [dictGet_dictSet]
      · exact htl.2.2 pr hpr' pl hpl

theorem processPushProject_nopush (cb : Callback PushEvent)
    (fr : Bool) (now : String) (st : PushState) (p : Project)
    (feed : List RawEvent) (hfilter : filterPushEvents feed = .ok []) :
    processPushProject cb fr now st p (some feed) = ⟨st, [], none⟩ := by
  rcases feed with _ | ⟨hd, tl⟩
  · rfl
  · unfold processPushProject
    simp [hfilter]

theorem pollPushProjects_all_unseen (cb : Callback PushEvent)
    (fr : Bool) (now : String) :
    ∀ (l : List (Project × Option (List RawEvent))) (st : PushState),
      (∀ pr ∈ l, dictGet st pr.1.id = none) →
      (l.map fun pr => pr.1.id).Nodup →
      (pollProjects (processPushProject cb fr now) st l).events = [] ∧
      ((∀ pr ∈ l, ∀ feed, pr.2 = some feed →
          ∃ kept, filterPushEvents feed = .ok kept) →
        (pollProjects (processPushProject cb fr now) st l).raised = none ∧
        (∀ pr ∈ l, ∀ feed e kept, pr.2 = some feed →
          filterPushEvents feed = .ok (e :: kept) →
          dictGet (pollProjects (processPushProject cb fr now) st l).state pr.1.id =
            some e.id)) := by
  intro l
  induction l with
  | nil =>
    intro st _ _
    refine ⟨rfl, fun _ => ⟨rfl, ?_⟩⟩
    intro pr hpr
    cases hpr
  | cons hd tl ih =>
    intro st hunseen hnodup
    obtain ⟨p, f⟩ := hd
    have hpid : dictGet st p.id = none := hunseen (p, f) (List.mem_cons_self _ _)
    have hnodup' : (p.id :: tl.map fun pr => pr.1.id).Nodup := by simpa using hnodup
    have hnotmem : p.id ∉ tl.map (fun pr => pr.1.id) := (List.nodup_cons.mp hnodup').1
    have htlnodup : (tl.map fun pr => pr.1.id).Nodup := (List.nodup_cons.mp hnodup').2
    have htlne : ∀ pr ∈ tl, pr.1.id ≠ p.id := by
      intro pr hpr h
      exact hnotmem (h ▸ List.mem_map_of_mem _ hpr)
    have htlunseen : ∀ pr ∈ tl, dictGet st pr.1.id = none :=
      fun pr hpr => hunseen pr (List.mem_cons_of_mem _ hpr)
    rcases f with _ | feed
    · have htl := ih st htlunseen htlnodup
      unfold pollProjects
      dsimp only
      refine ⟨htl.1, ?_⟩
      intro hok
      have hok' : ∀ pr ∈ tl, ∀ feed, pr.2 = some feed →
          ∃ kept, filterPushEvents feed = .ok kept :=
        fun pr hpr => hok pr (List.mem_cons_of_mem _ hpr)
      refine ⟨(htl.2 hok').1, ?_⟩
      intro pr hpr feed e kept hfeed hfilter
      rcases List.mem_cons.mp hpr with rfl | hpr'
      · cases hfeed
      · exact (htl.2 hok').2 pr hpr' feed e kept hfeed hfilter
    · rcases hfilter : filterPushEvents feed with msg | kept
      · have hstep := processPushProject_keyerror cb fr now st p feed msg hfilter
        unfold pollProjects
        dsimp only
        rw [hstep]
        dsimp only
        refine ⟨rfl, ?_⟩
        intro hok
        exfalso
        obtain ⟨kept, hkept⟩ :=
          hok (p, some feed) (List.mem_cons_self _ _) feed rfl
        rw [hfilter] at hkept
        cases hkept
      · rcases kept with _ | ⟨e, kept'⟩
        · have hstep := processPushProject_nopush cb fr now st p feed hfilter
          have htl := ih st htlunseen htlnodup
          unfold pollProjects
          dsimp only
          rw [hstep]
          dsimp only
          refine ⟨htl.1, ?_⟩
          intro hok
          have hok' : ∀ pr ∈ tl, ∀ feed, pr.2 = some feed →
              ∃ kept, filterPushEvents feed = .ok kept :=
            fun pr hpr => hok pr (List.mem_cons_of_mem _ hpr)
          refine ⟨(htl.2 hok').1, ?_⟩
          intro pr hpr feed2 e2 kept2 hfeed2 hfilter2
          rcases List.mem_cons.mp hpr with rfl | hpr'
          · injection hfeed2 with hfeq
            subst hfeq
            rw [hfilter] at hfilter2
            cases hfilter2
          · exact (htl.2 hok').2 pr hpr' feed2 e2 kept2 hfeed2 hfilter2
        · have hstep := processPushProject_unseen cb fr now st p feed kept' e hfilter hpid
          have hunseen1 : ∀ pr ∈ tl, dictGet (dictSet st p.id e.id) pr.1.id = none := by
            intro pr hpr
            rw [dictGet_dictSet, if_neg (htlne pr hpr)]
            exact htlunseen pr hpr
          have htl := ih _ hunseen1 htlnodup
          unfold pollProjects
          dsimp only
          rw [hstep]
          dsimp only
          refine ⟨htl.1, ?_⟩
          intro hok
          have hok' : ∀ pr ∈ tl, ∀ feed, pr.2 = some feed →
              ∃ kept, filterPushEvents feed = .ok kept :=
            fun pr hpr => hok pr (List.mem_cons_of_mem _ hpr)
          refine ⟨(htl.2 hok').1, ?_⟩
          intro pr hpr feed2 e2 kept2 hfeed2 hfilter2
          rcases List.mem_cons.mp hpr with rfl | hpr'
          · injection hfeed2 with hfeq
            subst hfeq
            rw [hfilter] at hfilter2
            injection hfilter2 with hlist
            injection hlist with hhead _
            subst hhead
            dsimp only
            refine pollProjects_preserves
              (fun s : PushState => dictGet s p.id = some e.id)
              (fun q => q.id ≠ p.id) _ ?_ tl _ htlne ?_
            · intro st' p' f' hcp hq
              rw [processPushProject_frame cb fr now st' p' f' p.id (Ne.symm hcp)]
              exact hq
            · simp [dictGet_dictSet]
          · exact (htl.2 hok').2 pr hpr' feed2 e2 kept2 hfeed2 hfilter2

theorem pollMRProjects_all_unseen (cb : Callback MergeRequestEvent)
    (fr : Bool) (now : String) :
    ∀ (l : List (Project × Option (List MergeRequest))) (st : MRState),
      (∀ pr ∈ l, ∀ mr rest, pr.2 = some (mr :: rest) → mrGet st pr.1.id mr.id = none) →
      (l.map fun pr => pr.1.id).Nodup →
      (pollProjects (processMRProject cb fr now) st l).events = [] ∧
      (pollProjects (processMRProject cb fr now) st l).raised = none ∧
      (∀ pr ∈ l, ∀ mr rest, pr.2 = some (mr :: rest) →
        mrGet (pollProjects (processMRProject cb fr now) st l).state pr.1.id mr.id =
          some mr.state) := by
  intro l
  induction l with
  | nil =>
    intro st _ _
    refine ⟨rfl, rfl, ?_⟩
    intro pr hpr
    cases hpr
  | cons hd tl ih =>
    intro st hunseen hnodup
    obtain ⟨p, f⟩ := hd
    have hnodup' : (p.id :: tl.map fun pr => pr.1.id).Nodup := by simpa using hnodup
    have hnotmem : p.id ∉ tl.map (fun pr => pr.1.id) := (List.nodup_cons.mp hnodup').1
    have htlnodup : (tl.map fun pr => pr.1.id).Nodup := (List.nodup_cons.mp hnodup').2
    have htlne : ∀ pr ∈ tl, pr.1.id ≠ p.id := by
      intro pr hpr h
      exact hnotmem (h ▸ List.mem_map_of_mem _ hpr)
    have htlunseen : ∀ pr ∈ tl, ∀ mr rest, pr.2 = some (mr :: rest) →
        mrGet st pr.1.id mr.id = none :=
      fun pr hpr => hunseen pr (List.mem_cons_of_mem _ hpr)
    rcases f with _ | feed
    · have htl := ih st htlunseen htlnodup
      unfold pollProjects
      dsimp only
      refine ⟨htl.1, htl.2.1, ?_⟩
      intro pr hpr mr rest hfeed
      rcases List.mem_cons.mp hpr with rfl | hpr'
      · cases hfeed
      · exact htl.2.2 pr hpr' mr rest hfeed
    · rcases feed with _ | ⟨mr0, rest0⟩
      · have htl := ih st htlunseen htlnodup
        unfold pollProjects
        dsimp only
        refine ⟨htl.1, htl.2.1, ?_⟩
        intro pr hpr mr rest hfeed
        rcases List.mem_cons.mp hpr with rfl | hpr'
        · cases hfeed
        · exact htl.2.2 pr hpr' mr rest hfeed
      · have hpid : mrGet st p.id mr0.id = none :=
          hunseen (p, some (mr0 :: rest0)) (List.mem_cons_self _ _) mr0 rest0 rfl
        have hstep := processMRProject_unseen cb fr now st p mr0 rest0 hpid
        have hunseen1 : ∀ pr ∈ tl, ∀ mr rest, pr.2 = some (mr :: rest) →
            mrGet (mrSet st p.id mr0.id mr0.state) pr.1.id mr.id = none := by
          intro pr hpr mr rest hfeed
          rw [mrGet_mrSet]
          rw [if_neg (by intro hand; exact htlne pr hpr hand.1)]
          exact htlunseen pr hpr mr rest hfeed
        have htl := ih _ hunseen1 htlnodup
        unfold pollProjects
        dsimp only
        rw [hstep]
        dsimp only
        refine ⟨htl.1, htl.2.1, ?_⟩
        intro pr hpr mr rest hfeed
        rcases List.mem_cons.mp hpr with rfl | hpr'
        · injection hfeed with hfeq
          injection hfeq with hhead _
          subst hhead
          dsimp only
          refine pollProjects_preserves
            (fun s : MRState => mrGet s p.id mr0.id = some mr0.state)
            (fun q => q.id ≠ p.id) _ ?_ tl _ htlne ?_
          · intro st' p' f' hcp hq
            rw [processMRProject_frame_project cb fr now st' p' f' p.id mr0.id (Ne.symm hcp)]
            exact hq
          · simp [mrGet_mrSet]
        · exact htl.2.2 pr hpr' mr rest hfeed

/-! ## Bridges between one tick and its project fold -/

theorem pollTick_cons_events {σ ε ρ : Type}
    (process : σ → Project → ρ → StepResult σ ε) (fr : Bool) (st : σ)
    (hd : Project × ρ) (tl : List (Project × ρ)) :
    (pollTick process fr st (some (hd :: tl))).events =
      (pollProjects process st (hd :: tl)).events := by
  unfold pollTick
  dsimp only
  rcases hr : (pollProjects process st (hd :: tl)).raised with _ | msg <;> rfl

theorem pollTick_cons_state {σ ε ρ : Type}
    (process : σ → Project → ρ → StepResult σ ε) (fr : Bool) (st : σ)
    (hd : Project × ρ) (tl : List (Project × ρ)) :
    (pollTick process fr st (some (hd :: tl))).state =
      (pollProjects process st (hd :: tl)).state := by
  unfold pollTick
  dsimp only
  rcases hr : (pollProjects process st (hd :: tl)).raised with _ | msg <;> rfl

theorem pollTick_cons_raised {σ ε ρ : Type}
    (process : σ → Project → ρ → StepResult σ ε) (fr : Bool) (st : σ)
    (hd : Project × ρ) (tl : List (Project × ρ)) :
    (pollTick process fr st (some (hd :: tl))).raised =
      (pollProjects process st (hd :: tl)).raised := by
  unfold pollTick
  dsimp only
  rcases hr : (pollProjects process st (hd :: tl)).raised with _ | msg <;> rfl

theorem pollTick_cons_flag {σ ε ρ : Type}
    (process : σ → Project → ρ → StepResult σ ε) (fr : Bool) (st : σ)
    (hd : Project × ρ) (tl : List (Project × ρ))
    (h : (pollProjects process st (hd :: tl)).raised = none) :
    (pollTick process fr st (some (hd :: tl))).first_run = false := by
  unfold pollTick
  dsimp only
  rw [h]

/-! ## Claims -/

/-- **C1**: For every poll loop (pipeline, push, merge-request) and every
tick in which N distinct (project[, sub-id]) keys are observed, all of them
previously Unseen, zero events are emitted on that tick, for any N: each
observation only populates the detector state (Unseen → Known) without
invoking the callback.  (Stated for any value of the warm-up flag: first
sightings never emit.  For the push loop the tick cannot raise, and the
recorded key is the filtered feed's head, provided each fetched feed passes
the `push_data` filter.) -/
theorem claim_C1_no_storm_on_first_sighting :
    (∀ (cb : Callback PipelineEvent) (fr : Bool) (now : String)
        (l : List (Project × Option Pipeline)) (st : PipeState),
      (∀ pr ∈ l, dictGet st pr.1.id = none) →
      (l.map fun pr => pr.1.id).Nodup →
      (pollPipelineTick cb now fr st (some l)).events = [] ∧
      (pollPipelineTick cb now fr st (some l)).raised = none ∧
      ∀ pr ∈ l, ∀ pl, pr.2 = some pl →
        dictGet (pollPipelineTick cb now fr st (some l)).state pr.1.id =
          some ⟨pl.id, pl.status⟩) ∧
    (∀ (cb : Callback PushEvent) (fr : Bool) (now : String)
        (l : List (Project × Option (List RawEvent))) (st : PushState),
      (∀ pr ∈ l, dictGet st pr.1.id = none) →
      (l.map fun pr => pr.1.id).Nodup →
      (pollPushTick cb now fr st (some l)).events = [] ∧
      ((∀ pr ∈ l, ∀ feed, pr.2 = some feed →
          ∃ kept, filterPushEvents feed = .ok kept) →
        (pollPushTick cb now fr st (some l)).raised = none ∧
        ∀ pr ∈ l, ∀ feed e kept, pr.2 = some feed →
          filterPushEvents feed = .ok (e :: kept) →
          dictGet (pollPushTick cb now fr st (some l)).state pr.1.id = some e.id)) ∧
    (∀ (cb : Callback MergeRequestEvent) (fr : Bool) (now : String)
        (l : List (Project × Option (List MergeRequest))) (st : MRState),
      (∀ pr ∈ l, ∀ mr rest, pr.2 = some (mr :: rest) →
        mrGet st pr.1.id mr.id = none) →
      (l.map fun pr => pr.1.id).Nodup →
      (pollMRTick cb now fr st (some l)).events = [] ∧
      (pollMRTick cb now fr st (some l)).raised = none ∧
      ∀ pr ∈ l, ∀ mr rest, pr.2 = some (mr :: rest) →
        mrGet (pollMRTick cb now fr st (some l)).state pr.1.id mr.id =
          some mr.state) := by
  refine ⟨?_, ?_, ?_⟩
  · intro cb fr now l st hunseen hnodup
    rcases l with _ | ⟨hd, tl⟩
    · exact ⟨rfl, rfl, by intro pr hpr; cases hpr⟩
    · have hfold := pollPipelineProjects_all_unseen cb fr now (hd :: tl) st hunseen hnodup
      unfold pollPipelineTick
      rw [pollTick_cons_events, pollTick_cons_raised]
      refine ⟨hfold.1, hfold.2.1, ?_⟩
      intro pr hpr pl hpl
      rw [pollTick_cons_state]
      exact hfold.2.2 pr hpr pl hpl
  · intro cb fr now l st hunseen hnodup
    rcases l with _ | ⟨hd, tl⟩
    · refine ⟨rfl, fun _ => ⟨rfl, by intro pr hpr; cases hpr⟩⟩
    · have hfold := pollPushProjects_all_unseen cb fr now (hd :: tl) st hunseen hnodup
      unfold pollPushTick
      rw [pollTick_cons_events]
      refine ⟨hfold.1, ?_⟩
      intro hok
      rw [pollTick_cons_raised]
      refine ⟨(hfold.2 hok).1, ?_⟩
      intro pr hpr feed e kept hfeed hfilter
      rw [pollTick_cons_state]
      exact (hfold.2 hok).2 pr hpr feed e kept hfeed hfilter
  · intro cb fr now l st hunseen hnodup
    rcases l with _ | ⟨hd, tl⟩
    · exact ⟨rfl, rfl, by intro pr hpr; cases hpr⟩
    · have hfold := pollMRProjects_all_unseen cb fr now (hd :: tl) st hunseen hnodup
      unfold pollMRTick
      rw [pollTick_cons_events, pollTick_cons_raised]
      refine ⟨hfold.1, hfold.2.1, ?_⟩
      intro pr hpr mr rest hfeed
      rw [pollTick_cons_state]
      exact hfold.2.2 pr hpr mr rest hfeed

/-- Witness for C1: fresh keys observed on the first tick (empty state) emit
no events in any of the three loops. -/
theorem claim_C1_witness :
    (pollPipelineTick (fun _ => none) "t" true []
        (some [(⟨1, "a"⟩, some ⟨100, "running"⟩),
               (⟨2, "b"⟩, some ⟨200, "failed"⟩)])).events = [] ∧
    (pollPushTick (fun _ => none) "t" true []
        (some [(⟨1, "a"⟩,
          some [⟨9001, some (some ⟨"main", 2, "alice"⟩), "alice"⟩])])).events = [] ∧
    (pollMRTick (fun _ => none) "t" true []
        (some [(⟨1, "a"⟩,
          some [⟨5, some "T", "opened", some 1, "bob"⟩])])).events = [] := by
  refine ⟨?_, ?_, ?_⟩
  · exact (claim_C1_no_storm_on_first_sighting.1 (fun _ => none) true "t" _ []
      (by intro pr hpr; rfl) (by decide)).1
  · exact (claim_C1_no_storm_on_first_sighting.2.1 (fun _ => none) true "t" _ []
      (by intro pr hpr; rfl) (by decide)).1
  · exact (claim_C1_no_storm_on_first_sighting.2.2 (fun _ => none) true "t" _ []
      (by intro pr hpr mr rest hfeed; rfl) (by decide)).1

/-- **C5**: every poll loop keeps a `first_run` warm-up flag.  While the flag
is set, a tick only populates state and never emits.  The flag flips to
false exactly at the end of a tick whose project-list fetch was non-empty
and whose body completed; a failed (`None`) or empty project-list fetch
leaves the flag, the state and the event output untouched. -/
theorem claim_C5_warmup_gate :
    (∀ (cb : Callback PipelineEvent) (now : String) (st : PipeState)
        (input : Option (List (Project × Option Pipeline))),
      (pollPipelineTick cb now true st input).events = []) ∧
    (∀ (cb : Callback PushEvent) (now : String) (st : PushState)
        (input : Option (List (Project × Option (List RawEvent)))),
      (pollPushTick cb now true st input).events = []) ∧
    (∀ (cb : Callback MergeRequestEvent) (now : String) (st : MRState)
        (input : Option (List (Project × Option (List MergeRequest)))),
      (pollMRTick cb now true st input).events = []) ∧
    (∀ (cb : Callback PipelineEvent) (now : String) (fr : Bool) (st : PipeState)
        (hd : Project × Option Pipeline) (tl : List (Project × Option Pipeline)),
      (pollPipelineTick cb now fr st (some (hd :: tl))).raised = none →
      (pollPipelineTick cb now fr st (some (hd :: tl))).first_run = false) ∧
    (∀ (cb : Callback PushEvent) (now : String) (fr : Bool) (st : PushState)
        (hd : Project × Option (List RawEvent))
        (tl : List (Project × Option (List RawEvent))),
      (pollPushTick cb now fr st (some (hd :: tl))).raised = none →
      (pollPushTick cb now fr st (some (hd :: tl))).first_run = false) ∧
    (∀ (cb : Callback MergeRequestEvent) (now : String) (fr : Bool) (st : MRState)
        (hd : Project × Option (List MergeRequest))
        (tl : List (Project × Option (List MergeRequest))),
      (pollMRTick cb now fr st (some (hd :: tl))).raised = none →
      (pollMRTick cb now fr st (some (hd :: tl))).first_run = false) ∧
    (∀ (cb : Callback PipelineEvent) (now : String) (fr : Bool) (st : PipeState),
      pollPipelineTick cb now fr st none = ⟨fr, st, [], none⟩ ∧
      pollPipelineTick cb now fr st (some []) = ⟨fr, st, [], none⟩) ∧
    (∀ (cb : Callback PushEvent) (now : String) (fr : Bool) (st : PushState),
      pollPushTick cb now fr st none = ⟨fr, st, [], none⟩ ∧
      pollPushTick cb now fr st (some []) = ⟨fr, st, [], none⟩) ∧
    (∀ (cb : Callback MergeRequestEvent) (now : String) (fr : Bool) (st : MRState),
      pollMRTick cb now fr st none = ⟨fr, st, [], none⟩ ∧
      pollMRTick cb now fr st (some []) = ⟨fr, st, [], none⟩) := by
  refine ⟨?_, ?_, ?_, ?_, ?_, ?_, ?_, ?_, ?_⟩
  · intro cb now st input
    exact pollTick_events_nil _
      (fun st' p f => (processPipelineProject_events_warm cb now st' p f).1) true st input
  · intro cb now st input
    exact pollTick_events_nil _
      (fun st' p f => processPushProject_events_warm cb now st' p f) true st input
  · intro cb now st input
    exact pollTick_events_nil _
      (fun st' p f => (processMRProject_events_warm cb now st' p f).1) true st input
  · intro cb now fr st hd tl h
    exact pollTick_cons_flag _ fr st hd tl
      ((pollTick_cons_raised _ fr st hd tl).symm.trans h)
  · intro cb now fr st hd tl h
    exact pollTick_cons_flag _ fr st hd tl
      ((pollTick_cons_raised _ fr st hd tl).symm.trans h)
  · intro cb now fr st hd tl h
    exact pollTick_cons_flag _ fr st hd tl
      ((pollTick_cons_raised _ fr st hd tl).symm.trans h)
  · intro cb now fr st
    exact ⟨rfl, rfl⟩
  · intro cb now fr st
    exact ⟨rfl, rfl⟩
  · intro cb now fr st
    exact ⟨rfl, rfl⟩

/-- Witness for C5: after one completed non-empty tick the warm-up flag of
each loop is false. -/
theorem claim_C5_witness :
    (pollPipelineTick (fun _ => none) "t" true []
        (some [(⟨1, "a"⟩, none)])).first_run = false ∧
    (pollPushTick (fun _ => none) "t" true []
        (some [(⟨1, "a"⟩, none)])).first_run = false ∧
    (pollMRTick (fun _ => none) "t" true []
        (some [(⟨1, "a"⟩, none)])).first_run = false := by
  refine ⟨?_, ?_, ?_⟩
  · exact claim_C5_warmup_gate.2.2.2.1 (fun _ => none) "t" true [] _ [] rfl
  · exact claim_C5_warmup_gate.2.2.2.2.1 (fun _ => none) "t" true [] _ [] rfl
  · exact claim_C5_warmup_gate.2.2.2.2.2.1 (fun _ => none) "t" true [] _ [] rfl

/-- **C2**: for every poll loop, given detector state Known(A) for a key and
a new observation B with B ≠ A under that loop's equality rule, processing
that observation (once the loop is past warm-up) invokes the callback with
exactly one event — carrying the observation's fields, the project name and
the tick's timestamp — and updates the detector state for that key to
Known(B). -/
theorem claim_C2_single_transition_single_event :
    (∀ (cb : Callback PipelineEvent) (now : String) (st : PipeState)
        (p : Project) (pl prev : Pipeline),
      dictGet st p.id = some prev →
      prev.id ≠ pl.id ∨ prev.status ≠ pl.status →
      processPipelineProject cb false now st p (some pl) =
        ⟨dictSet st p.id ⟨pl.id, pl.status⟩, [mkPipelineEvent p pl now],
          cb (mkPipelineEvent p pl now)⟩) ∧
    (∀ (cb : Callback PushEvent) (now : String) (st : PushState)
        (p : Project) (feed kept : List RawEvent) (e : RawEvent)
        (pd : PushData) (prev_id : Int),
      filterPushEvents feed = .ok (e :: kept) →
      e.push_data = some (some pd) →
      dictGet st p.id = some prev_id →
      e.id ≠ prev_id →
      processPushProject cb false now st p (some feed) =
        ⟨dictSet st p.id e.id, [mkPushEvent p e pd now],
          cb (mkPushEvent p e pd now)⟩) ∧
    (∀ (cb : Callback MergeRequestEvent) (now : String) (st : MRState)
        (p : Project) (mr : MergeRequest) (rest : List MergeRequest)
        (prev : String),
      mrGet st p.id mr.id = some prev →
      prev ≠ mr.state →
      processMRProject cb false now st p (some (mr :: rest)) =
        ⟨mrSet st p.id mr.id mr.state, [mkMREvent p mr now],
          cb (mkMREvent p mr now)⟩) :=
  ⟨fun cb now st p pl prev h hne =>
      processPipelineProject_changed cb now st p pl prev h hne,
   fun cb now st p feed kept e pd prev_id hfilter hpd h hid =>
      processPushProject_changed cb now st p feed kept e pd prev_id hfilter h hid hpd,
   fun cb now st p mr rest prev h hst =>
      processMRProject_changed cb now st p mr rest prev h hst⟩

/-- Witness for C2: one concrete transition per loop. -/
theorem claim_C2_witness :
    processPipelineProject (fun _ => none) false "t"
        [(1, ⟨100, "running"⟩)] ⟨1, "a"⟩ (some ⟨100, "success"⟩) =
      ⟨dictSet [(1, ⟨100, "running"⟩)] 1 ⟨100, "success"⟩,
        [mkPipelineEvent ⟨1, "a"⟩ ⟨100, "success"⟩ "t"], none⟩ ∧
    processPushProject (fun _ => none) false "t"
        [(1, 9001)] ⟨1, "a"⟩
        (some [⟨9002, some (some ⟨"main", 3, "alice"⟩), "alice"⟩]) =
      ⟨dictSet [(1, 9001)] 1 9002,
        [mkPushEvent ⟨1, "a"⟩ ⟨9002, some (some ⟨"main", 3, "alice"⟩), "alice"⟩
          ⟨"main", 3, "alice"⟩ "t"], none⟩ ∧
    processMRProject (fun _ => none) false "t"
        [(1, [(5, "opened")])] ⟨1, "a"⟩
        (some [⟨5, some "T", "merged", some 2, "bob"⟩]) =
      ⟨mrSet [(1, [(5, "opened")])] 1 5 "merged",
        [mkMREvent ⟨1, "a"⟩ ⟨5, some "T", "merged", some 2, "bob"⟩ "t"], none⟩ := by
  refine ⟨?_, ?_, ?_⟩
  · exact claim_C2_single_transition_single_event.1 (fun _ => none) "t"
      [(1, ⟨100, "running"⟩)] ⟨1, "a"⟩ ⟨100, "success"⟩ ⟨100, "running"⟩
      rfl (Or.inr (by decide))
  · exact claim_C2_single_transition_single_event.2.1 (fun _ => none) "t"
      [(1, 9001)] ⟨1, "a"⟩ _ [] ⟨9002, some (some ⟨"main", 3, "alice"⟩), "alice"⟩
      ⟨"main", 3, "alice"⟩ 9001 rfl rfl rfl (by decide)
  · exact claim_C2_single_transition_single_event.2.2 (fun _ => none) "t"
      [(1, [(5, "opened")])] ⟨1, "a"⟩ ⟨5, some "T", "merged", some 2, "bob"⟩ []
      "opened" rfl (by decide)

/-- **C3**: the loops' equality rules.  Pipeline: with warm-up passed, a
Known key's new observation yields an event iff `pipeline_id` or `status`
changed — equal iff both are unchanged.  Push: an event iff `event_id`
changed; branch, commit count and author are quantified freely and never
compared. -/
theorem claim_C3_equality_rules :
    (∀ (cb : Callback PipelineEvent) (now : String) (st : PipeState)
        (p : Project) (pl prev : Pipeline),
      dictGet st p.id = some prev →
      ((processPipelineProject cb false now st p (some pl)).events ≠ [] ↔
        ¬ (prev.id = pl.id ∧ prev.status = pl.status))) ∧
    (∀ (cb : Callback PushEvent) (now : String) (st : PushState)
        (p : Project) (feed kept : List RawEvent) (e : RawEvent) (prev_id : Int),
      filterPushEvents feed = .ok (e :: kept) →
      dictGet st p.id = some prev_id →
      ((processPushProject cb false now st p (some feed)).events ≠ [] ↔
        e.id ≠ prev_id)) := by
  constructor
  · intro cb now st p pl prev h
    by_cases heq : prev.id = pl.id ∧ prev.status = pl.status
    · rw [processPipelineProject_unchanged cb false now st p pl prev h heq.1 heq.2]
      simp [heq]
    · rw [processPipelineProject_changed cb now st p pl prev h
        ((not_and_or).mp heq)]
      simp [heq]
  · intro cb now st p feed kept e prev_id hfilter h
    obtain ⟨pd, hpd⟩ := filterPushEvents_ok_head feed kept e hfilter
    by_cases hid : e.id = prev_id
    · rw [processPushProject_unchanged cb false now st p feed kept e prev_id
        hfilter h hid]
      simp [hid]
    · rw [processPushProject_changed cb now st p feed kept e pd prev_id
        hfilter h hid hpd]
      simp [hid]

/-- Witness for C3: a status-only pipeline change counts as changed, and a
push observation with identical payload but equal event id does not emit. -/
theorem claim_C3_witness :
    ((processPipelineProject (fun _ => none) false "t"
        [(1, ⟨100, "running"⟩)] ⟨1, "a"⟩ (some ⟨100, "success"⟩)).events ≠ [] ↔
      ¬ ((100 : Int) = 100 ∧ "running" = "success")) ∧
    ((processPushProject (fun _ => none) false "t"
        [(1, 9001)] ⟨1, "a"⟩
        (some [⟨9001, some (some ⟨"other", 7, "zoe"⟩), "zoe"⟩])).events ≠ [] ↔
      (9001 : Int) ≠ 9001) := by
  constructor
  · exact claim_C3_equality_rules.1 (fun _ => none) "t"
      [(1, ⟨100, "running"⟩)] ⟨1, "a"⟩ ⟨100, "success"⟩ ⟨100, "running"⟩ rfl
  · exact claim_C3_equality_rules.2 (fun _ => none) "t"
      [(1, 9001)] ⟨1, "a"⟩ _ [] ⟨9001, some (some ⟨"other", 7, "zoe"⟩), "zoe"⟩
      9001 rfl rfl

theorem processMRProject_events_ne (cb : Callback MergeRequestEvent)
    (fr : Bool) (now : String) (st : MRState) (p : Project)
    (f : Option (List MergeRequest))
    (h : (processMRProject cb fr now st p f).events ≠ []) :
    fr = false ∧ ∃ mr rest prev, f = some (mr :: rest) ∧
      mrGet st p.id mr.id = some prev ∧ prev ≠ mr.state := by
  rcases f with _ | feed
  · exact absurd rfl h
  · rcases feed with _ | ⟨mr, rest⟩
    · exact absurd rfl h
    · rcases hg : mrGet st p.id mr.id with _ | prev
      · rw [processMRProject_unseen cb fr now st p mr rest hg] at h
        exact absurd rfl h
      · by_cases hst : prev = mr.state
        · rw [processMRProject_unchanged cb fr now st p mr rest prev hg hst] at h
          exact absurd rfl h
        · cases fr
          · exact ⟨rfl, mr, rest, prev, rfl, hg, hst⟩
          · rw [processMRProject_changed_warm cb now st p mr rest prev hg hst] at h
            exact absurd rfl h

/-- **C4**: the MR detector is keyed per (project_id, mr_id).  A first
sighting of an mr_id — whatever the states of other mr_ids of the same or
other projects — creates an independent Unseen → Known entry for that id,
emits nothing, raises nothing and leaves every other (project, mr) entry
unchanged.  Conversely an event is emitted only when a Known (project,
mr_id) key is seen again with a different state, past warm-up. -/
theorem claim_C4_mr_keyed_per_mr_id :
    (∀ (cb : Callback MergeRequestEvent) (fr : Bool) (now : String)
        (st : MRState) (p : Project) (mr : MergeRequest)
        (rest : List MergeRequest),
      mrGet st p.id mr.id = none →
      processMRProject cb fr now st p (some (mr :: rest)) =
        ⟨mrSet st p.id mr.id mr.state, [], none⟩ ∧
      mrGet (processMRProject cb fr now st p (some (mr :: rest))).state
        p.id mr.id = some mr.state ∧
      (∀ pid' mrid', ¬ (pid' = p.id ∧ mrid' = mr.id) →
        mrGet (processMRProject cb fr now st p (some (mr :: rest))).state
          pid' mrid' = mrGet st pid' mrid')) ∧
    (∀ (cb : Callback MergeRequestEvent) (fr : Bool) (now : String)
        (st : MRState) (p : Project) (f : Option (List MergeRequest)),
      (processMRProject cb fr now st p f).events ≠ [] →
      fr = false ∧ ∃ mr rest prev, f = some (mr :: rest) ∧
        mrGet st p.id mr.id = some prev ∧ prev ≠ mr.state) := by
  constructor
  · intro cb fr now st p mr rest hg
    have hstep := processMRProject_unseen cb fr now st p mr rest hg
    refine ⟨hstep, ?_, ?_⟩
    · rw [hstep]
      dsimp only
      rw [mrGet_mrSet]
      simp
    · intro pid' mrid' hne
      rw [hstep]
      dsimp only
      rw [mrGet_mrSet, if_neg hne]
  · exact processMRProject_events_ne

/-- Witness for C4: MR id 7 newly appearing as latest while id 5 is Known
as "opened" emits nothing and keeps id 5's entry (the spec's "Independent
MR tracking" scenario); the emission condition is exercised through the
contrapositive at the same input. -/
theorem claim_C4_witness :
    processMRProject (fun _ => none) false "t" [(1, [(5, "opened")])]
        ⟨1, "a"⟩ (some [⟨7, some "T", "opened", some 3, "bob"⟩]) =
      ⟨mrSet [(1, [(5, "opened")])] 1 7 "opened", [], none⟩ ∧
    mrGet (processMRProject (fun _ => none) false "t" [(1, [(5, "opened")])]
        ⟨1, "a"⟩ (some [⟨7, some "T", "opened", some 3, "bob"⟩])).state 1 7 =
      some "opened" ∧
    mrGet (processMRProject (fun _ => none) false "t" [(1, [(5, "opened")])]
        ⟨1, "a"⟩ (some [⟨7, some "T", "opened", some 3, "bob"⟩])).state 1 5 =
      some "opened" := by
  have h := claim_C4_mr_keyed_per_mr_id.1 (fun _ => none) false "t"
    [(1, [(5, "opened")])] ⟨1, "a"⟩ ⟨7, some "T", "opened", some 3, "bob"⟩ [] rfl
  refine ⟨h.1, h.2.1, ?_⟩
  have := h.2.2 1 5 (by decide)
  rw [this]
  rfl

theorem pollProjects_single {σ ε ρ : Type}
    (process : σ → Project → ρ → StepResult σ ε) (st : σ) (p : Project) (f : ρ) :
    (pollProjects process st [(p, f)]).events = (process st p f).events ∧
    (pollProjects process st [(p, f)]).state = (process st p f).state ∧
    (pollProjects process st [(p, f)]).raised = (process st p f).raised := by
  unfold pollProjects
  dsimp only
  rcases hr : (process st p f).raised with _ | msg
  · refine ⟨by simp [pollProjects], by simp [pollProjects], by simp [pollProjects, hr]⟩
  · exact ⟨rfl, rfl, rfl⟩

/-- **C6** (evaluating the code at the failing input): the push loop's
comprehension `[event for event in events_list if event['push_data']]`
raises `KeyError` on a feed entry that lacks the `push_data` key — such as
a comment or MR-activity entry — so the push tick aborts instead of
skipping that entry.  Entries whose `push_data` key is present but null
are skipped, and the first entry bearing push metadata is selected. -/
theorem claim_C6_keyerror_on_missing_push_data :
    filterPushEvents [⟨9005, none, "carol"⟩] = .error "KeyError: push_data" ∧
    (pollPushTick (fun _ => none) "t" false [(1, 9001)]
        (some [(⟨1, "a"⟩, some [⟨9005, none, "carol"⟩])])).raised =
      some "KeyError: push_data" ∧
    filterPushEvents
        [⟨9006, some none, "carol"⟩,
         ⟨9007, some (some ⟨"main", 1, "dave"⟩), "dave"⟩] =
      .ok [⟨9007, some (some ⟨"main", 1, "dave"⟩), "dave"⟩] := by
  refine ⟨rfl, ?_, rfl⟩
  decide

/-- Counterexample for C7: a raising handler is NOT caught at the dispatch
site — the exception escapes the tick, so the poll loop does not continue. -/
theorem claim_C7_counterexample :
    (pollPipelineTick (fun _ => some "boom") "t" false
        [(1, ⟨100, "running"⟩)]
        (some [(⟨1, "a"⟩, some ⟨100, "success"⟩)])).raised = some "boom" ∧
    ¬ (pollPipelineTick (fun _ => some "boom") "t" false
        [(1, ⟨100, "running"⟩)]
        (some [(⟨1, "a"⟩, some ⟨100, "success"⟩)])).raised = none := by
  refine ⟨?_, ?_⟩ <;> decide

/-- **C7 (amended)**: the poll loops invoke the callback with no
try/except.  If the handler raises, the exception propagates out of the
tick and terminates the poll loop; the detector state is unaffected by the
failure — the transition was committed before the handler was invoked —
and the callback was invoked with that single event. -/
theorem claim_C7_handler_error_propagates :
    (∀ (cb : Callback PipelineEvent) (now : String) (st : PipeState)
        (p : Project) (pl prev : Pipeline) (msg : String),
      dictGet st p.id = some prev →
      prev.id ≠ pl.id ∨ prev.status ≠ pl.status →
      cb (mkPipelineEvent p pl now) = some msg →
      (pollPipelineTick cb now false st (some [(p, some pl)])).raised = some msg ∧
      (pollPipelineTick cb now false st (some [(p, some pl)])).events =
        [mkPipelineEvent p pl now] ∧
      (pollPipelineTick cb now false st (some [(p, some pl)])).state =
        dictSet st p.id ⟨pl.id, pl.status⟩) ∧
    (∀ (cb : Callback MergeRequestEvent) (now : String) (st : MRState)
        (p : Project) (mr : MergeRequest) (rest : List MergeRequest)
        (prev msg : String),
      mrGet st p.id mr.id = some prev →
      prev ≠ mr.state →
      cb (mkMREvent p mr now) = some msg →
      (pollMRTick cb now false st (some [(p, some (mr :: rest))])).raised = some msg ∧
      (pollMRTick cb now false st (some [(p, some (mr :: rest))])).events =
        [mkMREvent p mr now] ∧
      (pollMRTick cb now false st (some [(p, some (mr :: rest))])).state =
        mrSet st p.id mr.id mr.state) := by
  constructor
  · intro cb now st p pl prev msg h hne hcb
    have hstep := processPipelineProject_changed cb now st p pl prev h hne
    have hsingle := pollProjects_single (processPipelineProject cb false now) st p (some pl)
    unfold pollPipelineTick
    rw [pollTick_cons_raised, pollTick_cons_events, pollTick_cons_state]
    rw [hsingle.1, hsingle.2.1, hsingle.2.2, hstep]
    exact ⟨hcb, rfl, rfl⟩
  · intro cb now st p mr rest prev msg h hst hcb
    have hstep := processMRProject_changed cb now st p mr rest prev h hst
    have hsingle := pollProjects_single (processMRProject cb false now) st p
      (some (mr :: rest))
    unfold pollMRTick
    rw [pollTick_cons_raised, pollTick_cons_events, pollTick_cons_state]
    rw [hsingle.1, hsingle.2.1, hsingle.2.2, hstep]
    exact ⟨hcb, rfl, rfl⟩

/-- Witness for the amended C7: a concrete raising handler kills the tick
while the committed transition survives in the state. -/
theorem claim_C7_witness :
    (pollPipelineTick (fun _ => some "boom") "t" false [(1, ⟨100, "running"⟩)]
        (some [(⟨1, "a"⟩, some ⟨100, "success"⟩)])).raised = some "boom" ∧
    (pollPipelineTick (fun _ => some "boom") "t" false [(1, ⟨100, "running"⟩)]
        (some [(⟨1, "a"⟩, some ⟨100, "success"⟩)])).events =
      [mkPipelineEvent ⟨1, "a"⟩ ⟨100, "success"⟩ "t"] ∧
    (pollPipelineTick (fun _ => some "boom") "t" false [(1, ⟨100, "running"⟩)]
        (some [(⟨1, "a"⟩, some ⟨100, "success"⟩)])).state =
      dictSet [(1, ⟨100, "running"⟩)] 1 ⟨100, "success"⟩ :=
  claim_C7_handler_error_propagates.1 (fun _ => some "boom") "t"
    [(1, ⟨100, "running"⟩)] ⟨1, "a"⟩ ⟨100, "success"⟩ ⟨100, "running"⟩ "boom"
    rfl (Or.inr (by decide)) rfl

theorem pollProjects_cons_skip {σ ε ρ : Type}
    (process : σ → Project → ρ → StepResult σ ε) (st : σ) (p : Project) (f : ρ)
    (tl : List (Project × ρ)) (hstep : process st p f = ⟨st, [], none⟩) :
    pollProjects process st ((p, f) :: tl) = pollProjects process st tl := by
  conv_lhs => rw [pollProjects]
  rw [hstep]
  simp

/-- **C8**: within a single tick, if the per-project API call fails (or
yields no data) for project P while it succeeds for project Q, then Q's
transition is still detected and its event dispatched, and P's detector
state is left exactly as it was before the tick. -/
theorem claim_C8_partial_failure_isolation :
    (∀ (cb : Callback PipelineEvent) (now : String) (st : PipeState)
        (P Q : Project) (q prev : Pipeline),
      P.id ≠ Q.id →
      dictGet st Q.id = some prev →
      prev.id ≠ q.id ∨ prev.status ≠ q.status →
      (pollPipelineTick cb now false st (some [(P, none), (Q, some q)])).events =
        [mkPipelineEvent Q q now] ∧
      dictGet (pollPipelineTick cb now false st
        (some [(P, none), (Q, some q)])).state P.id = dictGet st P.id ∧
      dictGet (pollPipelineTick cb now false st
        (some [(P, none), (Q, some q)])).state Q.id = some ⟨q.id, q.status⟩) ∧
    (∀ (cb : Callback MergeRequestEvent) (now : String) (st : MRState)
        (P Q : Project) (mr : MergeRequest) (rest : List MergeRequest)
        (prev : String),
      P.id ≠ Q.id →
      mrGet st Q.id mr.id = some prev →
      prev ≠ mr.state →
      (pollMRTick cb now false st
        (some [(P, none), (Q, some (mr :: rest))])).events = [mkMREvent Q mr now] ∧
      (∀ mrid', mrGet (pollMRTick cb now false st
        (some [(P, none), (Q, some (mr :: rest))])).state P.id mrid' =
          mrGet st P.id mrid') ∧
      mrGet (pollMRTick cb now false st
        (some [(P, none), (Q, some (mr :: rest))])).state Q.id mr.id =
        some mr.state) := by
  constructor
  · intro cb now st P Q q prev hPQ hq hne
    have hskip := pollProjects_cons_skip (processPipelineProject cb false now)
      st P none [(Q, some q)] rfl
    have hsingle := pollProjects_single (processPipelineProject cb false now)
      st Q (some q)
    have hstep := processPipelineProject_changed cb now st Q q prev hq hne
    unfold pollPipelineTick
    rw [pollTick_cons_events, pollTick_cons_state, hskip, hsingle.1, hsingle.2.1,
      hstep]
    refine ⟨rfl, ?_, ?_⟩
    · dsimp only
      rw [dictGet_dictSet, if_neg hPQ]
    · dsimp only
      rw [dictGet_dictSet, if_pos rfl]
  · intro cb now st P Q mr rest prev hPQ hq hst
    have hskip := pollProjects_cons_skip (processMRProject cb false now)
      st P none [(Q, some (mr :: rest))] rfl
    have hsingle := pollProjects_single (processMRProject cb false now)
      st Q (some (mr :: rest))
    have hstep := processMRProject_changed cb now st Q mr rest prev hq hst
    unfold pollMRTick
    rw [pollTick_cons_events, pollTick_cons_state, hskip, hsingle.1, hsingle.2.1,
      hstep]
    refine ⟨rfl, ?_, ?_⟩
    · intro mrid'
      dsimp only
      rw [mrGet_mrSet, if_neg (fun hand => hPQ hand.1)]
    · dsimp only
      rw [mrGet_mrSet, if_pos ⟨rfl, rfl⟩]

/-- Witness for C8: project 2's fetch fails while project 1's pipeline
transitions — the event is dispatched and project 2's entry is untouched. -/
theorem claim_C8_witness :
    (pollPipelineTick (fun _ => none) "t" false
        [(1, ⟨100, "running"⟩), (2, ⟨50, "failed"⟩)]
        (some [(⟨2, "p"⟩, none), (⟨1, "q"⟩, some ⟨100, "success"⟩)])).events =
      [mkPipelineEvent ⟨1, "q"⟩ ⟨100, "success"⟩ "t"] ∧
    dictGet (pollPipelineTick (fun _ => none) "t" false
        [(1, ⟨100, "running"⟩), (2, ⟨50, "failed"⟩)]
        (some [(⟨2, "p"⟩, none), (⟨1, "q"⟩, some ⟨100, "success"⟩)])).state 2 =
      dictGet [(1, ⟨100, "running"⟩), (2, ⟨50, "failed"⟩)] 2 ∧
    dictGet (pollPipelineTick (fun _ => none) "t" false
        [(1, ⟨100, "running"⟩), (2, ⟨50, "failed"⟩)]
        (some [(⟨2, "p"⟩, none), (⟨1, "q"⟩, some ⟨100, "success"⟩)])).state 1 =
      some ⟨100, "success"⟩ :=
  claim_C8_partial_failure_isolation.1 (fun _ => none) "t"
    [(1, ⟨100, "running"⟩), (2, ⟨50, "failed"⟩)] ⟨2, "p"⟩ ⟨1, "q"⟩
    ⟨100, "success"⟩ ⟨100, "running"⟩ (by decide) rfl (Or.inr (by decide))

/-- **C9**: `get_json` returns the parsed body exactly when the HTTP status
is 200; on any non-200 status, and on any transport-level error
(`aiohttp.ClientError`), it returns the explicit no-data result `none`.  It
is a total function of the HTTP outcome — no failure propagates to the
caller. -/
theorem claim_C9_get_json_contract :
    ∀ (α : Type) (status : Nat) (body : α) (msg : String),
      (status = 200 → get_json (HttpOutcome.response status body) = some body) ∧
      (status ≠ 200 → get_json (HttpOutcome.response status body) = none) ∧
      get_json (HttpOutcome.clientError msg : HttpOutcome α) = none := by
  intro α status body msg
  refine ⟨?_, ?_, rfl⟩
  · intro h
    simp [get_json, h]
  · intro h
    simp [get_json, h]

/-- Witness for C9: a 200 response yields its body, a 404 and a transport
error yield `none`. -/
theorem claim_C9_witness :
    get_json (HttpOutcome.response 200 (37 : Int)) = some 37 ∧
    get_json (HttpOutcome.response 404 (37 : Int)) = none ∧
    get_json (HttpOutcome.clientError "connection reset" : HttpOutcome Int) =
      none := by
  refine ⟨?_, ?_, ?_⟩
  · exact (claim_C9_get_json_contract Int 200 37 "x").1 rfl
  · exact (claim_C9_get_json_contract Int 404 37 "x").2.1 (by decide)
  · exact (claim_C9_get_json_contract Int 404 37 "connection reset").2.2

/-- **C10**: detector state entries are never removed.  Once a key is Known
it stays Known across any run of ticks, in every loop; in every loop a key
absent from every tick's project list keeps exactly its old entry (it
remains Known with its last observation); and in every loop a Known key
whose observation differs on reappearance (past warm-up) emits
immediately — there is no per-key re-warm-up. -/
theorem claim_C10_entries_never_removed :
    (∀ (cb : Callback PipelineEvent)
        (ticks : List (String × Option (List (Project × Option Pipeline))))
        (fr : Bool) (st : PipeState) (k : Int),
      (dictGet st k).isSome →
      (dictGet (pollPipelineRun cb fr st ticks).state k).isSome) ∧
    (∀ (cb : Callback PushEvent)
        (ticks : List (String × Option (List (Project × Option (List RawEvent)))))
        (fr : Bool) (st : PushState) (k : Int),
      (dictGet st k).isSome →
      (dictGet (pollPushRun cb fr st ticks).state k).isSome) ∧
    (∀ (cb : Callback MergeRequestEvent)
        (ticks : List (String × Option (List (Project × Option (List MergeRequest)))))
        (fr : Bool) (st : MRState) (pid mrid : Int),
      (mrGet st pid mrid).isSome →
      (mrGet (pollMRRun cb fr st ticks).state pid mrid).isSome) ∧
    (∀ (cb : Callback PipelineEvent)
        (ticks : List (String × Option (List (Project × Option Pipeline))))
        (fr : Bool) (st : PipeState) (k : Int),
      (∀ t ∈ ticks, ∀ l, t.2 = some l → ∀ pr ∈ l, pr.1.id ≠ k) →
      dictGet (pollPipelineRun cb fr st ticks).state k = dictGet st k) ∧
    (∀ (cb : Callback PipelineEvent) (now : String) (st : PipeState)
        (p : Project) (pl prev : Pipeline),
      dictGet st p.id = some prev →
      prev.id ≠ pl.id ∨ prev.status ≠ pl.status →
      (pollPipelineTick cb now false st (some [(p, some pl)])).events =
        [mkPipelineEvent p pl now]) ∧
    (∀ (cb : Callback PushEvent)
        (ticks : List (String × Option (List (Project × Option (List RawEvent)))))
        (fr : Bool) (st : PushState) (k : Int),
      (∀ t ∈ ticks, ∀ l, t.2 = some l → ∀ pr ∈ l, pr.1.id ≠ k) →
      dictGet (pollPushRun cb fr st ticks).state k = dictGet st k) ∧
    (∀ (cb : Callback MergeRequestEvent)
        (ticks : List (String × Option (List (Project × Option (List MergeRequest)))))
        (fr : Bool) (st : MRState) (pid mrid : Int),
      (∀ t ∈ ticks, ∀ l, t.2 = some l → ∀ pr ∈ l, pr.1.id ≠ pid) →
      mrGet (pollMRRun cb fr st ticks).state pid mrid = mrGet st pid mrid) ∧
    (∀ (cb : Callback PushEvent) (now : String) (st : PushState)
        (p : Project) (feed kept : List RawEvent) (e : RawEvent)
        (pd : PushData) (prev_id : Int),
      filterPushEvents feed = .ok (e :: kept) →
      e.push_data = some (some pd) →
      dictGet st p.id = some prev_id →
      e.id ≠ prev_id →
      (pollPushTick cb now false st (some [(p, some feed)])).events =
        [mkPushEvent p e pd now]) ∧
    (∀ (cb : Callback MergeRequestEvent) (now : String) (st : MRState)
        (p : Project) (mr : MergeRequest) (rest : List MergeRequest)
        (prev : String),
      mrGet st p.id mr.id = some prev →
      prev ≠ mr.state →
      (pollMRTick cb now false st (some [(p, some (mr :: rest))])).events =
        [mkMREvent p mr now]) := by
  refine ⟨?_, ?_, ?_, ?_, ?_, ?_, ?_, ?_, ?_⟩
  · intro cb ticks fr st k h
    exact pollRun_preserves (fun s => (dictGet s k).isSome) (fun _ => True)
      (fun now fr' => processPipelineProject cb fr' now)
      (fun now fr' st' p f _ hq => processPipelineProject_known cb fr' now st' p f k hq)
      ticks fr st (fun t ht l hl pr hpr => trivial) h
  · intro cb ticks fr st k h
    exact pollRun_preserves (fun s => (dictGet s k).isSome) (fun _ => True)
      (fun now fr' => processPushProject cb fr' now)
      (fun now fr' st' p f _ hq => processPushProject_known cb fr' now st' p f k hq)
      ticks fr st (fun t ht l hl pr hpr => trivial) h
  · intro cb ticks fr st pid mrid h
    exact pollRun_preserves (fun s => (mrGet s pid mrid).isSome) (fun _ => True)
      (fun now fr' => processMRProject cb fr' now)
      (fun now fr' st' p f _ hq => processMRProject_known cb fr' now st' p f pid mrid hq)
      ticks fr st (fun t ht l hl pr hpr => trivial) h
  · intro cb ticks fr st k habs
    exact pollRun_preserves (fun s => dictGet s k = dictGet st k)
      (fun p => p.id ≠ k)
      (fun now fr' => processPipelineProject cb fr' now)
      (fun now fr' st' p f hc hq =>
        (processPipelineProject_frame cb fr' now st' p f k (Ne.symm hc)).trans hq)
      ticks fr st habs rfl
  · intro cb now st p pl prev h hne
    have hstep := processPipelineProject_changed cb now st p pl prev h hne
    have hsingle := pollProjects_single (processPipelineProject cb false now) st p (some pl)
    unfold pollPipelineTick
    rw [pollTick_cons_events, hsingle.1, hstep]
  · intro cb ticks fr st k habs
    exact pollRun_preserves (fun s => dictGet s k = dictGet st k)
      (fun p => p.id ≠ k)
      (fun now fr' => processPushProject cb fr' now)
      (fun now fr' st' p f hc hq =>
        (processPushProject_frame cb fr' now st' p f k (Ne.symm hc)).trans hq)
      ticks fr st habs rfl
  · intro cb ticks fr st pid mrid habs
    exact pollRun_preserves (fun s => mrGet s pid mrid = mrGet st pid mrid)
      (fun p => p.id ≠ pid)
      (fun now fr' => processMRProject cb fr' now)
      (fun now fr' st' p f hc hq =>
        (processMRProject_frame_project cb fr' now st' p f pid mrid (Ne.symm hc)).trans hq)
      ticks fr st habs rfl
  · intro cb now st p feed kept e pd prev_id hfilter hpd h hid
    have hstep := processPushProject_changed cb now st p feed kept e pd prev_id
      hfilter h hid hpd
    have hsingle := pollProjects_single (processPushProject cb false now) st p (some feed)
    unfold pollPushTick
    rw [pollTick_cons_events, hsingle.1, hstep]
  · intro cb now st p mr rest prev h hst
    have hstep := processMRProject_changed cb now st p mr rest prev h hst
    have hsingle := pollProjects_single (processMRProject cb false now) st p
      (some (mr :: rest))
    unfold pollMRTick
    rw [pollTick_cons_events, hsingle.1, hstep]

/-- Witness for C10: in each loop, an entry Known before a run in which its
project never appears stays Known and exactly unchanged, and a differing
observation on reappearance emits at once. -/
theorem claim_C10_witness :
    (dictGet (pollPipelineRun (fun _ => none) false [(1, ⟨100, "running"⟩)]
        [("t1", some [(⟨2, "b"⟩, some ⟨5, "success"⟩)]), ("t2", none)]).state 1).isSome ∧
    dictGet (pollPipelineRun (fun _ => none) false [(1, ⟨100, "running"⟩)]
        [("t1", some [(⟨2, "b"⟩, some ⟨5, "success"⟩)]), ("t2", none)]).state 1 =
      dictGet [(1, ⟨100, "running"⟩)] 1 ∧
    (pollPipelineTick (fun _ => none) "t3" false [(1, ⟨100, "running"⟩)]
        (some [(⟨1, "a"⟩, some ⟨101, "running"⟩)])).events =
      [mkPipelineEvent ⟨1, "a"⟩ ⟨101, "running"⟩ "t3"] ∧
    dictGet (pollPushRun (fun _ => none) false [(1, 9001)]
        [("t1", some [(⟨2, "b"⟩, none)])]).state 1 = dictGet [(1, 9001)] 1 ∧
    mrGet (pollMRRun (fun _ => none) false [(1, [(5, "opened")])]
        [("t1", some [(⟨2, "b"⟩, none)])]).state 1 5 =
      mrGet [(1, [(5, "opened")])] 1 5 ∧
    (pollPushTick (fun _ => none) "t4" false [(1, 9001)]
        (some [(⟨1, "a"⟩,
          some [⟨9002, some (some ⟨"main", 3, "alice"⟩), "alice"⟩])])).events =
      [mkPushEvent ⟨1, "a"⟩ ⟨9002, some (some ⟨"main", 3, "alice"⟩), "alice"⟩
        ⟨"main", 3, "alice"⟩ "t4"] ∧
    (pollMRTick (fun _ => none) "t5" false [(1, [(5, "opened")])]
        (some [(⟨1, "a"⟩, some [⟨5, some "T", "merged", some 2, "bob"⟩])])).events =
      [mkMREvent ⟨1, "a"⟩ ⟨5, some "T", "merged", some 2, "bob"⟩ "t5"] := by
  refine ⟨?_, ?_, ?_, ?_, ?_, ?_, ?_⟩
  · exact claim_C10_entries_never_removed.1 (fun _ => none)
      [("t1", some [(⟨2, "b"⟩, some ⟨5, "success"⟩)]), ("t2", none)]
      false [(1, ⟨100, "running"⟩)] 1 rfl
  · refine claim_C10_entries_never_removed.2.2.2.1 (fun _ => none)
      [("t1", some [(⟨2, "b"⟩, some ⟨5, "success"⟩)]), ("t2", none)]
      false [(1, ⟨100, "running"⟩)] 1 ?_
    intro t ht l hl pr hpr
    rcases List.mem_cons.mp ht with rfl | ht2
    · injection hl with hll
      subst hll
      rcases List.mem_singleton.mp hpr with rfl
      decide
    · rcases List.mem_cons.mp ht2 with rfl | ht3
      · cases hl
      · cases ht3
  · exact claim_C10_entries_never_removed.2.2.2.2.1 (fun _ => none) "t3"
      [(1, ⟨100, "running"⟩)] ⟨1, "a"⟩ ⟨101, "running"⟩ ⟨100, "running"⟩
      rfl (Or.inl (by decide))
  · refine claim_C10_entries_never_removed.2.2.2.2.2.1 (fun _ => none)
      [("t1", some [(⟨2, "b"⟩, none)])] false [(1, 9001)] 1 ?_
    intro t ht l hl pr hpr
    rcases List.mem_singleton.mp ht with rfl
    injection hl with hll
    subst hll
    rcases List.mem_singleton.mp hpr with rfl
    decide
  · refine claim_C10_entries_never_removed.2.2.2.2.2.2.1 (fun _ => none)
      [("t1", some [(⟨2, "b"⟩, none)])] false [(1, [(5, "opened")])] 1 5 ?_
    intro t ht l hl pr hpr
    rcases List.mem_singleton.mp ht with rfl
    injection hl with hll
    subst hll
    rcases List.mem_singleton.mp hpr with rfl
    decide
  · exact claim_C10_entries_never_removed.2.2.2.2.2.2.2.1 (fun _ => none) "t4"
      [(1, 9001)] ⟨1, "a"⟩ _ []
      ⟨9002, some (some ⟨"main", 3, "alice"⟩), "alice"⟩ ⟨"main", 3, "alice"⟩
      9001 rfl rfl rfl (by decide)
  · exact claim_C10_entries_never_removed.2.2.2.2.2.2.2.2 (fun _ => none) "t5"
      [(1, [(5, "opened")])] ⟨1, "a"⟩ ⟨5, some "T", "merged", some 2, "bob"⟩ []
      "opened" rfl (by decide)

end GitNotify
